import Mathlib

/-!
Shallow embedding of the GAEN-like exposure-notification prototype
(crates `exposurelib`, `client`, `diagnosisserver`) and proofs about it.

Modelling conventions:
* `u32` exposure times (ENIN) are `Nat`; `DateTime<Utc>` timestamps are `Int`.
* 16-byte keys (TEK, RPIK, AEMK) are abstract values of type `Nat`; the HKDF
  derivations (`EN-RPIK`, `EN-AEMK`) are modelled as injective tagging
  functions, and an AES-derived rolling proximity identifier is modelled as
  the pair of its inputs (derived values are only ever compared for
  equality in the code under study).
* Rust `HashSet` fields that are used purely as sets become `Finset`;
  `HashSet`/`HashMap` contents that the code iterates over become `List`
  (iteration order of the Rust containers is unspecified, and no claim
  depends on it).
* Fallible operations become `Except Unit` / `Option`; a Rust `panic!` /
  `unreachable!` is the `Except.error ()` outcome.
* Network sends, log lines and listener-window requests are modelled as an
  explicit list of emitted `Effect`s; the RPC transport itself is assumed
  to succeed (transport errors are logged and retried in the source and
  decide none of the claims).
-/

namespace Gaenext

/-- ENIN exposure time (`u32` counting 10-minute intervals), `time.rs`. -/
abbrev ExposureTime := Nat

/-- Abstract 16-byte temporary exposure key value, `primitives.rs`. -/
abbrev Tek := Nat

/-- Abstract endpoint (`SocketAddr`) used as connection identifier. -/
abbrev SocketAddr := Nat

/-- Computation id allocated by the diagnosis server (`u32`). -/
abbrev ComputationId := Nat

/-- UTC timestamp (`DateTime<Utc>`), modelled as an integer. -/
abbrev Timestamp := Int

/-- Rust `ExposureTime::floor_tekrp_multiple` from `time.rs`:
`en_interval_number / tekrp * tekrp`. -/
def floorTekrpMultiple (t : ExposureTime) (tekrp : Nat) : ExposureTime :=
  t / tekrp * tekrp

/-- Rust `Validity<Keyring>` from `primitives.rs`: a keyring together with the
TEKRP-aligned start of its validity window. -/
structure Validity (K : Type) where
  valid_from : ExposureTime
  keyring : K
  deriving DecidableEq, Repr

/-- Rust `Validity::new` from `primitives.rs`: floors `valid_from` to the
TEKRP grid. -/
def Validity.new (t : ExposureTime) (tekrp : Nat) (k : K) : Validity K :=
  { valid_from := floorTekrpMultiple t tekrp, keyring := k }

/-- Rust `Validity::query` from `primitives.rs`. -/
def Validity.query (v : Validity K) (t : ExposureTime) (tekrp : Nat) :
    Option K :=
  if floorTekrpMultiple t tekrp = v.valid_from then some v.keyring else none

/-- A TEK validity, `Validity<TemporaryExposureKey>`. -/
abbrev VTek := Validity Tek

/-- Rust `Intensity` from `config.rs`. -/
inductive Intensity where
  | lowRisk
  | highRisk
  deriving DecidableEq, Repr

/-- Abstract HKDF derivation of the RPIK from a TEK
(`RollingProximityIdentifierKey::new`); modelled as injective tagging,
see the module conventions. -/
def deriveRpik (t : Tek) : Nat := t

/-- Abstract HKDF derivation of the AEMK from a TEK
(`AssociatedEncryptedMetadataKey::new`). -/
def deriveAemk (t : Tek) : Nat := t

/-- Rust `TekKeyring` from `primitives.rs` (TEK with derived RPIK and AEMK). -/
structure TekKeyring where
  tek : Tek
  rpik : Nat
  aemk : Nat
  deriving DecidableEq, Repr

/-- Rust `TekKeyring::try_from(TemporaryExposureKey)`: derivation fails only on
an RNG/HKDF failure of the `ring` crate, so it is modelled as total. -/
def TekKeyring.ofTek (t : Tek) : TekKeyring :=
  { tek := t, rpik := deriveRpik t, aemk := deriveAemk t }

/-- Rust `Validity::<TekKeyring>::try_from(Validity<TemporaryExposureKey>)` from
`primitives.rs`, with the HKDF step modelled as total. -/
def deriveKeyring (v : VTek) : Validity TekKeyring :=
  { valid_from := v.valid_from, keyring := TekKeyring.ofTek v.keyring }

/-- A rolling proximity identifier. `RollingProximityIdentifier::new` is
AES-128-ECB of the padded ENIN under the RPIK; it is modelled as the pair
of its two inputs (the code only compares RPIs for equality). -/
structure Rpi where
  rpik : Nat
  at_time : ExposureTime
  deriving DecidableEq, Repr

/-- Rust `TekKeyring::rpi` from `primitives.rs`. -/
def TekKeyring.rpi (k : TekKeyring) (at_time : ExposureTime) : Rpi :=
  { rpik := k.rpik, at_time := at_time }

/-- Rust `Metadata` from `primitives.rs`: broadcast intensity plus the plaintext
connection identifier. -/
structure Metadata where
  intensity : Intensity
  connection_identifier : SocketAddr
  deriving DecidableEq, Repr

/-- Rust `AssociatedEncryptedMetadata` from `primitives.rs`. In the prototype
encrypt/decrypt are the identity on `Metadata` (the `ciphertext` field
stores the metadata as-is). -/
structure Aem where
  ciphertext : Metadata
  deriving DecidableEq, Repr

/-- Rust `AssociatedEncryptedMetadata::decrypt` (identity stub in the source;
the AEMK and RPI arguments are ignored there). -/
def Aem.decrypt (a : Aem) : Metadata := a.ciphertext

/-- Rust `TracedContact` from `client_state.rs`. -/
structure TracedContact where
  timestamp : Timestamp
  exposure_time : ExposureTime
  rpi : Rpi
  aem : Aem
  deriving DecidableEq, Repr

/-- Rust `Match` from `client_state.rs`. Note: in the source, `PartialEq` and
`Hash` for `Match` look at the `tek` field only. -/
structure Match where
  socket_addr : SocketAddr
  tek : VTek
  high_risk : Finset ExposureTime
  low_risk : Finset ExposureTime
  deriving DecidableEq

/-- Rust `BluetoothLayer` from `client_state.rs`: the two-level `BTreeMap`
(TEKRP-floored ENIN, then exact ENIN) modelled as nested association
lists; `Vec<TracedContact>` leaves keep their order. -/
structure BluetoothLayer where
  traced_contacts : List (ExposureTime × List (ExposureTime × List TracedContact))
  deriving DecidableEq, Repr

/-- First-match association-list lookup (models `BTreeMap::get` /
`HashMap::get`; the Rust maps hold each key at most once). -/
def lookupA {β : Type} : List (Nat × β) → Nat → Option β
  | [], _ => none
  | (k, v) :: rest, key => if k = key then some v else lookupA rest key

/-- Replace-or-insert on an association list (models `HashMap::insert` and
`entry(..).or_insert(..)` followed by a mutation). -/
def insertA {β : Type} : List (Nat × β) → Nat → β → List (Nat × β)
  | [], key, v => [(key, v)]
  | (k, w) :: rest, key, v =>
    if k = key then (key, v) :: rest else (k, w) :: insertA rest key v

/-- Decidable equality for `Except`, used to evaluate the embedded
handlers on concrete inputs. -/
instance {e a : Type} [DecidableEq e] [DecidableEq a] :
    DecidableEq (Except e a) := fun x y =>
  match x, y with
  | Except.ok u, Except.ok v =>
    if h : u = v then isTrue (by rw [h])
    else isFalse (by intro hc; cases hc; exact h rfl)
  | Except.error u, Except.error v =>
    if h : u = v then isTrue (by rw [h])
    else isFalse (by intro hc; cases hc; exact h rfl)
  | Except.ok _, Except.error _ => isFalse (by intro hc; cases hc)
  | Except.error _, Except.ok _ => isFalse (by intro hc; cases hc)

/-- Accumulator of the scan inside `BluetoothLayer::match_with`:
the `high_risk` / `low_risk` sets under construction and the connection
identifier seen so far (`socket_addr`). -/
structure MatchAcc where
  high : Finset ExposureTime
  low : Finset ExposureTime
  saddr : Option SocketAddr
  deriving DecidableEq

/-- One traced contact inside `BluetoothLayer::match_with`'s inner loop:
compare the observed RPI with the derived one, classify the decrypted
metadata, and `panic!` (= `Except.error ()`) when a previously recorded
connection identifier disagrees with the current one. -/
def stepContact (kr : TekKeyring) (enin : ExposureTime) (st : MatchAcc)
    (tc : TracedContact) : Except Unit MatchAcc :=
  if tc.rpi = kr.rpi enin then
    let md := tc.aem.decrypt
    let st' :=
      if md.intensity = Intensity.highRisk then
        { st with high := insert enin st.high }
      else
        { st with low := insert enin st.low }
    match st.saddr with
    | some a =>
      if a = md.connection_identifier then
        Except.ok { st' with saddr := some md.connection_identifier }
      else
        Except.error ()
    | none => Except.ok { st' with saddr := some md.connection_identifier }
  else
    Except.ok st

/-- The nested loops of `BluetoothLayer::match_with` over one TEKRP bucket,
flattened to `(sub-bucket ENIN, traced contact)` pairs. -/
def bucketPairs (bucket : List (ExposureTime × List TracedContact)) :
    List (ExposureTime × TracedContact) :=
  bucket.flatMap fun p => p.2.map fun tc => (p.1, tc)

/-- Rust `BluetoothLayer::match_with` from `client_state.rs`. The `panic!` on
inconsistent connection identifiers is the `Except.error ()` outcome. -/
def BluetoothLayer.matchWith (bl : BluetoothLayer) (w : Validity TekKeyring) :
    Except Unit (Option Match) :=
  match lookupA bl.traced_contacts w.valid_from with
  | none => Except.ok none
  | some bucket =>
    match (bucketPairs bucket).foldlM
        (fun st p => stepContact w.keyring p.1 st p.2)
        (MatchAcc.mk ∅ ∅ none) with
    | Except.error e => Except.error e
    | Except.ok acc =>
      match acc.saddr with
      | some a =>
        Except.ok (some (Match.mk a (Validity.mk w.valid_from w.keyring.tek)
          acc.high acc.low))
      | none => Except.ok none

/-- The decrypted connection identifiers of the contacts in one flattened
bucket whose observed RPI equals the derived RPI for their sub-bucket. -/
def pairsMatchingCIs (kr : TekKeyring)
    (pairs : List (ExposureTime × TracedContact)) : List SocketAddr :=
  (pairs.filter fun p => p.2.rpi = kr.rpi p.1).map
    fun p => p.2.aem.decrypt.connection_identifier

/-- The connection identifiers carried by the RPI-matching traced contacts
in the TEKRP bucket `match_with` scans (empty when the bucket is absent). -/
def matchingCIs (bl : BluetoothLayer) (w : Validity TekKeyring) :
    List SocketAddr :=
  match lookupA bl.traced_contacts w.valid_from with
  | none => []
  | some bucket => pairsMatchingCIs w.keyring (bucketPairs bucket)

/-- Rust `TimeInterval` from `time.rs`: half-open interval of UTC timestamps. -/
structure TimeInterval where
  from_including : Timestamp
  to_excluding : Timestamp
  deriving DecidableEq, Repr

/-- Rust `TimeInterval::before` from `time.rs` (`from - t > 0`). -/
def TimeInterval.before (i : TimeInterval) (t : Timestamp) : Bool :=
  decide (0 < i.from_including - t)

/-- Rust `TimeInterval::after` from `time.rs` (`t - to >= 0`). -/
def TimeInterval.after (i : TimeInterval) (t : Timestamp) : Bool :=
  decide (0 ≤ t - i.to_excluding)

/-- Rust `TimeInterval::contains` from `time.rs`. -/
def TimeInterval.containsT (i : TimeInterval) (t : Timestamp) : Bool :=
  !(i.before t) && !(i.after t)

/-- Rust `ListType` from `diagnosis_server_state.rs`. -/
inductive LType where
  | blacklist
  | greylist
  deriving DecidableEq, Repr

/-- Rust `ComputationState` from `diagnosis_server_state.rs`: the blacklist and
greylist TEK sets of one computation in one chunk. The Rust `HashSet`s are
modelled as lists because the client iterates over them; set-level claims
go through `List.toFinset`. -/
structure ComputationState where
  blacklist : List VTek
  greylist : List VTek
  deriving DecidableEq, Repr

/-- The TEK set of the requested list, as a `Finset`
(`computation_state.blacklist()` / `.greylist()` in `Chunks::deduplicate`). -/
def ComputationState.listOf (cs : ComputationState) (lt : LType) : Finset VTek :=
  match lt with
  | LType.blacklist => cs.blacklist.toFinset
  | LType.greylist => cs.greylist.toFinset

/-- Rust `Chunk` from `diagnosis_server_state.rs`: covered interval plus the
per-computation list data (a `HashMap`, modelled as an association list). -/
structure Chunk where
  covers : TimeInterval
  data : List (ComputationId × ComputationState)
  deriving DecidableEq, Repr

/-- Rust `Chunks` from `diagnosisserver/state.rs`: the retention period and the
done-chunk `VecDeque`, newest at the front (= head of the list). -/
structure Chunks where
  retention_period : Int
  inner : List Chunk
  deriving DecidableEq, Repr

/-- Rust `Chunks::get_chunks` from `diagnosisserver/state.rs`. -/
def Chunks.getChunks (cs : Chunks) (fromT : Timestamp) : List Chunk :=
  match cs.inner with
  | [] => []
  | newest :: _ =>
    if newest.covers.from_including ≤ fromT then []
    else cs.inner.takeWhile fun c => !(c.covers.containsT fromT)

/-- Rust `Chunks::add_done_chunk` from `diagnosisserver/state.rs`; `now` stands
for the impure `Utc::now()` call. -/
def Chunks.addDoneChunk (cs : Chunks) (now : Timestamp) (c : Chunk) : Chunks :=
  let pushed := c :: cs.inner
  if (pushed.getLast (List.cons_ne_nil c cs.inner)).covers.to_excluding ≤
      now - cs.retention_period then
    { cs with inner := pushed.dropLast }
  else
    { cs with inner := pushed }

/-- Rust `Chunks::deduplicate` from `diagnosisserver/state.rs`: remove from the
candidate set everything already stored for this computation id and list
type in any done chunk; also return the removed duplicates. -/
def Chunks.deduplicate (cs : Chunks) (lt : LType) (cid : ComputationId)
    (candidates : Finset VTek) : Finset VTek × Finset VTek :=
  let deduplicated := cs.inner.foldl
    (fun acc chunk =>
      match lookupA chunk.data cid with
      | some st => acc \ st.listOf lt
      | none => acc)
    candidates
  (deduplicated, candidates \ deduplicated)

/-- The union over the done chunks of the stored set for one computation id
and list type (the set `Chunks::deduplicate` subtracts). -/
def Chunks.storedUnion (cs : Chunks) (lt : LType) (cid : ComputationId) :
    Finset VTek :=
  cs.inner.foldl
    (fun acc chunk =>
      match lookupA chunk.data cid with
      | some st => acc ∪ st.listOf lt
      | none => acc)
    ∅

/-- Rust `DiagnosisServerState` from `diagnosisserver/state.rs` (the mutexes and
the id seed are irrelevant to the claims about the pure store). -/
structure DsState where
  current_chunk : Chunk
  done_chunks : Chunks
  deriving DecidableEq, Repr

/-- Rust `DiagnosisServerState::request_chunks` (the `download` RPC handler):
reads only the done-chunk deque. -/
def DsState.requestChunks (s : DsState) (fromT : Timestamp) : List Chunk :=
  s.done_chunks.getChunks fromT

/-- Rust `PredecessorInfo` from `rpcs.rs`. -/
structure PredecessorInfo where
  tek : Tek
  deriving DecidableEq, Repr

/-- Rust `PredecessorInfo::update` from `rpcs.rs`. -/
def PredecessorInfo.update (_p : PredecessorInfo) (next : Tek) :
    PredecessorInfo :=
  { tek := next }

/-- Rust `OriginInfo` from `rpcs.rs`. -/
structure OriginInfo where
  tek : Tek
  deriving DecidableEq, Repr

/-- Rust `ForwardInfo` from `rpcs.rs`. -/
structure ForwardInfo where
  predecessor : PredecessorInfo
  origin : OriginInfo
  deriving DecidableEq, Repr

/-- Rust `ForwardParams` from `rpcs.rs`. -/
structure ForwardParams where
  computation_id : ComputationId
  info : Validity ForwardInfo
  shared_encounter_times : Finset ExposureTime
  deriving DecidableEq

/-- Rust `ForwardParams::new` from `rpcs.rs`: predecessor and origin both start
as the sender's own TEK (first-hop marker). -/
def ForwardParams.new (cid : ComputationId) (valid_from : ExposureTime)
    (tekrp : Nat) (own_tek : Tek) (shared : Finset ExposureTime) :
    ForwardParams :=
  { computation_id := cid
    info := Validity.new valid_from tekrp
      (ForwardInfo.mk (PredecessorInfo.mk own_tek) (OriginInfo.mk own_tek))
    shared_encounter_times := shared }

/-- Rust `ForwardParams::update` from `rpcs.rs`. `Validity::keyring_mut` is not
in the sources; it is modelled as in-place access to the `keyring` field,
matching its use here. -/
def ForwardParams.update (p : ForwardParams) (next_predecessor_tek : Tek)
    (next_shared : Finset ExposureTime) : ForwardParams :=
  { p with
    shared_encounter_times := next_shared
    info := { p.info with
      keyring := { p.info.keyring with
        predecessor := p.info.keyring.predecessor.update next_predecessor_tek } } }

/-- Rust `ForwardParams::is_first_forward` from `rpcs.rs`. -/
def ForwardParams.isFirstForward (p : ForwardParams) : Bool :=
  decide (p.info.keyring.origin.tek = p.info.keyring.predecessor.tek)

/-- Rust `ForwardParams::predecessor_tek` from `rpcs.rs`. -/
def ForwardParams.predecessorTek (p : ForwardParams) (tekrp : Nat) : VTek :=
  Validity.new p.info.valid_from tekrp p.info.keyring.predecessor.tek

/-- Rust `ForwardParams::origin_tek` from `rpcs.rs`. -/
def ForwardParams.originTek (p : ForwardParams) (tekrp : Nat) : VTek :=
  Validity.new p.info.valid_from tekrp p.info.keyring.origin.tek

/-- Rust `ExposureKeyring` from `primitives.rs`, reduced to its `TekKeyring`
(the seed keyring exists "for protocol symmetry" and is unused by the
matching and forwarding logic). -/
structure ExposureKeyring where
  tek_keyring : TekKeyring
  deriving DecidableEq, Repr

/-- Rust `Keys::exposure_keyring` from `client_state.rs`: first keyring whose
validity window covers `at_time`. -/
def keysExposureKeyring (keys : List (Validity ExposureKeyring))
    (at_time : ExposureTime) (tekrp : Nat) : Option ExposureKeyring :=
  keys.findSome? fun v => v.query at_time tekrp

/-- Rust `Keys::all_teks` from `client_state.rs`. The `From<Validity<ExposureKeyring>>
for Validity<TemporaryExposureKey>` impl is not in the sources; it is
modelled as keeping `valid_from` and projecting the TEK. -/
def keysAllTeks (keys : List (Validity ExposureKeyring)) : Finset VTek :=
  (keys.map fun v => Validity.mk v.valid_from v.keyring.tek_keyring.tek).toFinset

/-- Rust `Keys::is_own_tek` from `client_state.rs`. The `PartialEq` between
keyring and TEK validities is not in the sources; it is modelled as
equality of `valid_from` and of the TEK value. -/
def keysIsOwnTek (keys : List (Validity ExposureKeyring)) (t : VTek) : Bool :=
  keys.any fun v =>
    decide (v.valid_from = t.valid_from ∧ v.keyring.tek_keyring.tek = t.keyring)

/-- Rust `Computation` from `client/state.rs`: successor matches and admitted
predecessor TEKs. The `HashSet<Match>` (equality on `tek` only) is
modelled as a list with guarded insertion. -/
structure Computation where
  successors : List Match
  redlist : Finset VTek
  deriving DecidableEq

/-- Rust `Computation::default()`. -/
def Computation.default : Computation :=
  { successors := [], redlist := ∅ }

/-- Rust `Computation::is_own` from `client/state.rs`: the successor set is
empty. -/
def Computation.isOwn (c : Computation) : Bool :=
  c.successors.isEmpty

/-- Rust `HashSet<Match>::insert`: a no-op when a match with the same `tek` is
already present (Rust `Match` equality is on `tek` only). -/
def insertMatch (l : List Match) (m : Match) : List Match :=
  if l.any (fun n => decide (n.tek = m.tek)) then l else m :: l

/-- Observable actions of the participant node: RPC sends, the
listener-window request (`listener.send(computation_period)`) and the two
user-visible alerts. -/
inductive Effect where
  | listen
  | blacklistUpload (diagnosis_keys : Finset VTek)
  | greylistUpload (cid : ComputationId) (diagnosis_keys : Finset VTek)
  | forward (endpoint : SocketAddr) (params : ForwardParams)
  | alertTracedContact (highRisk : Bool)
  | alertTransitiveContact
  deriving DecidableEq

/-- Whether an effect is an outbound `forward` RPC. -/
def Effect.isForward : Effect → Bool
  | Effect.forward _ _ => true
  | _ => false

/-- Rust `ClientState` from `client/state.rs` (the channels and RPC clients are
replaced by the `Effect` list the handlers return). The `ownCid` field is
specification-only ghost state recording the computation id inserted by
`init`; no handler reads it. -/
structure ClientState where
  positively_tested : Bool
  tekrp : Nat
  keys : List (Validity ExposureKeyring)
  bluetooth_layer : BluetoothLayer
  computations : List (ComputationId × Computation)
  traced_contact : Bool
  transitive_contact : Bool
  ownCid : Option ComputationId
  deriving DecidableEq

/-- Rust `ClientState::init` from `client/state.rs`: a positively tested
participant opens the listener window, uploads all own TEKs to the
blacklist, and records the freshly assigned computation id with
`Computation::default()` (the id assigned by the diagnosis server is the
`assigned` input). -/
def ClientState.init (s : ClientState) (assigned : ComputationId) :
    ClientState × List Effect :=
  if s.positively_tested then
    ({ s with
        computations := insertA s.computations assigned Computation.default
        ownCid := some assigned },
      [Effect.listen, Effect.blacklistUpload (keysAllTeks s.keys)])
  else
    (s, [])

/-- Rust `ClientState::on_tek_match` from `client/state.rs`. The
`unreachable!` when no own TEK covers the matched window is
`Except.error ()`; key derivation is modelled as total and the forward
RPC as succeeding. -/
def ClientState.onTekMatch (s : ClientState) (tek : VTek) (lt : LType)
    (cid : ComputationId) : Except Unit (ClientState × List Effect) :=
  match s.bluetooth_layer.matchWith (deriveKeyring tek) with
  | Except.error e => Except.error e
  | Except.ok none => Except.ok (s, [])
  | Except.ok (some m) =>
    let s1 :=
      if lt = LType.blacklist ∧ m.high_risk ≠ ∅ then
        { s with traced_contact := true }
      else s
    let effs1 : List Effect :=
      if lt = LType.blacklist then
        [Effect.alertTracedContact (decide (m.high_risk ≠ ∅))]
      else []
    if m.high_risk = ∅ then
      Except.ok (s1, effs1)
    else
      let echo :=
        match lookupA s1.computations cid with
        | some comp => lt = LType.greylist && decide (m.tek ∈ comp.redlist)
        | none => false
      if echo then
        Except.ok (s1, effs1)
      else
        match keysExposureKeyring s1.keys m.tek.valid_from s1.tekrp with
        | none => Except.error ()
        | some ek =>
          let fparams := ForwardParams.new cid m.tek.valid_from s1.tekrp
            ek.tek_keyring.tek m.high_risk
          let comp0 := (lookupA s1.computations cid).getD Computation.default
          let comp1 := { comp0 with successors := insertMatch comp0.successors m }
          Except.ok
            ({ s1 with computations := insertA s1.computations cid comp1 },
              effs1 ++ [Effect.listen, Effect.forward m.socket_addr fparams])

/-- The redlist admission step of `on_tek_forward`: a first forward
(`origin == predecessor`) inserts the predecessor TEK into the
computation's redlist. -/
def redlistAdmit (p : ForwardParams) (tekrp : Nat) (comp : Computation) :
    Computation :=
  if p.isFirstForward then
    { comp with redlist := insert (p.predecessorTek tekrp) comp.redlist }
  else comp

/-- Rust `ClientState::on_tek_forward` from `client/state.rs`. Drop paths
return the (possibly redlist-updated) state with no effects; the
`unreachable!` on a missing own TEK is `Except.error ()`. -/
def ClientState.onTekForward (s : ClientState) (p : ForwardParams) :
    Except Unit (ClientState × List Effect) :=
  let tekrp := s.tekrp
  let origin_tek := p.originTek tekrp
  let predecessor_tek := p.predecessorTek tekrp
  match s.bluetooth_layer.matchWith (deriveKeyring predecessor_tek) with
  | Except.error e => Except.error e
  | Except.ok none => Except.ok (s, [])
  | Except.ok (some m) =>
    match lookupA s.computations p.computation_id with
    | none => Except.ok (s, [])
    | some comp =>
      let comp1 := redlistAdmit p tekrp comp
      let s1 := { s with
        computations := insertA s.computations p.computation_id comp1 }
      if predecessor_tek ∉ comp1.redlist then
        Except.ok (s1, [])
      else
        let shared := m.high_risk ∩ p.shared_encounter_times
        if shared = ∅ then
          Except.ok (s1, [])
        else if comp1.isOwn then
          Except.ok (s1, [Effect.greylistUpload p.computation_id {origin_tek}])
        else
          match keysExposureKeyring s1.keys m.tek.valid_from tekrp with
          | none => Except.error ()
          | some ek =>
            let effs := comp1.successors.filterMap fun succ =>
              let next_shared := shared ∩ succ.high_risk
              if next_shared = ∅ then none
              else some (Effect.forward succ.socket_addr
                (p.update ek.tek_keyring.tek next_shared))
            Except.ok (s1, effs)

/-- The body of `ClientState::process_chunk` for one `(computation_id,
computation_state)` entry: transitive-contact detection, then
`on_tek_match` for every blacklist and greylist TEK. -/
def ClientState.processTeks (lt : LType) (cid : ComputationId) :
    ClientState → List VTek → Except Unit (ClientState × List Effect)
  | s, [] => Except.ok (s, [])
  | s, t :: ts =>
    match s.onTekMatch t lt cid with
    | Except.error e => Except.error e
    | Except.ok (s', effs) =>
      match ClientState.processTeks lt cid s' ts with
      | Except.error e => Except.error e
      | Except.ok (s'', effs') => Except.ok (s'', effs ++ effs')

/-- The transitive-contact detection of `process_chunk`: the flag is set
when an own TEK shows up in the greylist of an already-joined
computation. -/
def ClientState.noteTransitive (s : ClientState) (cid : ComputationId)
    (cstate : ComputationState) : ClientState :=
  if (lookupA s.computations cid).isSome &&
      cstate.greylist.any (fun tek => keysIsOwnTek s.keys tek) then
    { s with transitive_contact := true }
  else s

/-- One entry of `ClientState::process_chunk`: raise the transitive-contact
alert when an own TEK shows up in the greylist of an already-joined
computation, then run the blacklist and greylist TEK matches. -/
def ClientState.processEntry (s : ClientState) (cid : ComputationId)
    (cstate : ComputationState) : Except Unit (ClientState × List Effect) :=
  let found := (lookupA s.computations cid).isSome &&
    cstate.greylist.any fun tek => keysIsOwnTek s.keys tek
  let s0 := s.noteTransitive cid cstate
  let effs0 : List Effect :=
    if found ∧ s.traced_contact = false then [Effect.alertTransitiveContact]
    else []
  match ClientState.processTeks LType.blacklist cid s0 cstate.blacklist with
  | Except.error e => Except.error e
  | Except.ok (s1, effs1) =>
    match ClientState.processTeks LType.greylist cid s1 cstate.greylist with
    | Except.error e => Except.error e
    | Except.ok (s2, effs2) => Except.ok (s2, effs0 ++ effs1 ++ effs2)

/-- Rust `ClientState::process_chunk` from `client/state.rs`. -/
def ClientState.processChunk :
    ClientState → List (ComputationId × ComputationState) →
    Except Unit (ClientState × List Effect)
  | s, [] => Except.ok (s, [])
  | s, (cid, cstate) :: rest =>
    match s.processEntry cid cstate with
    | Except.error e => Except.error e
    | Except.ok (s', effs) =>
      match ClientState.processChunk s' rest with
      | Except.error e => Except.error e
      | Except.ok (s'', effs') => Except.ok (s'', effs ++ effs')

/-- The `Event::NewChunks` arm of `ClientState::run`: interleaves the
`next_from` rewind (`if chunk.covers.to > next_from { next_from =
chunk.covers.from }`) with `process_chunk`; the final `next_from` is the
reply sent back to the updater. -/
def ClientState.processChunks :
    ClientState → Timestamp → List Chunk →
    Except Unit (ClientState × List Effect × Timestamp)
  | s, next_from, [] => Except.ok (s, [], next_from)
  | s, next_from, c :: rest =>
    let nf :=
      if next_from < c.covers.to_excluding then c.covers.from_including
      else next_from
    match s.processChunk c.data with
    | Except.error e => Except.error e
    | Except.ok (s1, effs1) =>
      match ClientState.processChunks s1 nf rest with
      | Except.error e => Except.error e
      | Except.ok (s2, effs2, r) => Except.ok (s2, effs1 ++ effs2, r)

/-- The events of the participant node's serial inbox, `client/state.rs`. -/
inductive Event where
  | newChunks (last_from : Timestamp) (chunks : List Chunk)
  | newForwardRequest (params : ForwardParams)
  | computationPeriodExpired

/-- One iteration of the `ClientState::run` event loop (the reply channels
carry no state; `ComputationPeriodExpired` only logs the verdict). -/
def ClientState.handleEvent (s : ClientState) :
    Event → Except Unit (ClientState × List Effect)
  | Event.newChunks lf cs =>
    match s.processChunks lf cs with
    | Except.error e => Except.error e
    | Except.ok (s', effs, _r) => Except.ok (s', effs)
  | Event.newForwardRequest p => s.onTekForward p
  | Event.computationPeriodExpired => Except.ok (s, [])

/-- Run a sequence of inbox events. -/
def runEvents : ClientState → List Event → Except Unit ClientState
  | s, [] => Except.ok s
  | s, e :: rest =>
    match s.handleEvent e with
    | Except.error er => Except.error er
    | Except.ok (s', _) => runEvents s' rest

/-- The states a participant node reaches: `init` with the diagnosis
server's assigned computation id, then any sequence of inbox events. -/
def reachableState (s0 : ClientState) (assigned : ComputationId)
    (evts : List Event) : Except Unit ClientState :=
  runEvents (s0.init assigned).1 evts

/-- A pre-`init` client state: fresh computation table and flags
(`ClientState::new` in `client/state.rs`). -/
def ClientState.startState (s : ClientState) : Prop :=
  s.computations = [] ∧ s.traced_contact = false ∧
    s.transitive_contact = false ∧ s.ownCid = none

/-- Formalization of claim C1's invariant: an entry of the computations
table satisfies `is_own()` exactly when it is the entry `init` created. -/
def ownInvariant (s : ClientState) : Prop :=
  ∀ p ∈ s.computations,
    ((p : ComputationId × Computation).2.isOwn = true ↔ s.ownCid = some p.1)

/-- The provable part of claim C1: every entry not created by `init` has a
non-empty successor set. -/
def nonInitNonEmpty (s : ClientState) : Prop :=
  ∀ p ∈ s.computations,
    s.ownCid ≠ some (p : ComputationId × Computation).1 → p.2.successors ≠ []

/-- The `next_from` rewind of `ClientState::run` in isolation. -/
def nextFromFold (last_from : Timestamp) (chunks : List Chunk) : Timestamp :=
  chunks.foldl
    (fun nf c =>
      if nf < c.covers.to_excluding then c.covers.from_including else nf)
    last_from

/-- Modelled from the spec: the claimed reply value, the fold
`next_from = max(next_from, chunk.covers.from)` over the chunks starting
from `last_from` (stated for comparison with the implementation's
`nextFromFold`). -/
def nextFromSpecMax (last_from : Timestamp) (chunks : List Chunk) :
    Timestamp :=
  chunks.foldl (fun nf c => max nf c.covers.from_including) last_from

/-- All elements of a list are equal (used to state the C7 panic
condition). -/
def allEqL (l : List SocketAddr) : Prop := ∀ a ∈ l, ∀ b ∈ l, a = b

/-- Preservation relation used for the C1 induction: the ghost `ownCid`
is unchanged and the non-init-entries-have-successors invariant is
carried along. -/
def presInv (s s' : ClientState) : Prop :=
  s'.ownCid = s.ownCid ∧ (nonInitNonEmpty s → nonInitNonEmpty s')

/-- A concrete key list for exhibiting handler behaviour: one own keyring
valid from ENIN 4 (tekrp 2). -/
def exhibitKeys : List (Validity ExposureKeyring) :=
  [Validity.mk 4 (ExposureKeyring.mk (TekKeyring.ofTek 9))]

/-- A concrete high-risk traced contact of the foreign TEK `7` at ENIN 5
broadcasting endpoint 42. -/
def exhibitContact : TracedContact :=
  TracedContact.mk 0 5 (Rpi.mk (deriveRpik 7) 5)
    (Aem.mk (Metadata.mk Intensity.highRisk 42))

/-- The bluetooth layer holding `exhibitContact` in the TEKRP bucket 4. -/
def exhibitLayer : BluetoothLayer :=
  BluetoothLayer.mk [(4, [(5, [exhibitContact])])]

/-- A positively tested pre-`init` client state. -/
def exhibitStart : ClientState :=
  ClientState.mk true 2 exhibitKeys exhibitLayer [] false false none

/-- The foreign TEK validity matching `exhibitContact`. -/
def exhibitTek : VTek := Validity.mk 4 7

/-- A downloaded chunk whose greylist carries `exhibitTek` under the
computation id 0 that `init` created for `exhibitStart`. -/
def exhibitChunk : Chunk :=
  Chunk.mk (TimeInterval.mk 0 10) [(0, ComputationState.mk [] [exhibitTek])]

/-- The state `exhibitStart` reaches after `init` (assigned id 0) and one
`NewChunks` event delivering `exhibitChunk`. -/
def exhibitFinal : ClientState :=
  match reachableState exhibitStart 0 [Event.newChunks 0 [exhibitChunk]] with
  | Except.ok s => s
  | Except.error _ => exhibitStart

/-! ### Helper lemmas -/

theorem lookupA_mem {β : Type} :
    ∀ (l : List (Nat × β)) (k : Nat) (v : β),
      lookupA l k = some v → (k, v) ∈ l := by
  intro l
  induction l with
  | nil => intro k v h; simp [lookupA] at h
  | cons p rest ih =>
    intro k v h
    by_cases hk : p.1 = k
    · simp [lookupA, hk] at h
      have hp : (k, v) = p := by rw [← hk, ← h]
      rw [hp]
      exact List.mem_cons_self p rest
    · simp [lookupA, hk] at h
      exact List.mem_cons.mpr (Or.inr (ih k v h))

theorem insertA_mem {β : Type} :
    ∀ (l : List (Nat × β)) (k : Nat) (v : β) (p : Nat × β),
      p ∈ insertA l k v → p = (k, v) ∨ p ∈ l := by
  intro l
  induction l with
  | nil => intro k v p h; simp [insertA] at h; left; exact h
  | cons q rest ih =>
    intro k v p h
    by_cases hk : q.1 = k
    · simp [insertA, hk] at h
      rcases h with h | h
      · left; exact h
      · right; right; exact h
    · simp [insertA, hk] at h
      rcases h with h | h
      · right
        rw [h]
        exact List.mem_cons_self q rest
      · rcases ih k v p h with h2 | h2
        · left; exact h2
        · right
          exact List.mem_cons.mpr (Or.inr h2)

theorem insertMatch_ne_nil (l : List Match) (m : Match) :
    insertMatch l m ≠ [] := by
  unfold insertMatch
  split
  · rename_i h
    cases l with
    | nil => simp at h
    | cons a as => simp
  · simp

theorem takeWhile_mem_sat {α : Type} (p : α → Bool) :
    ∀ (l : List α) (a : α), a ∈ l.takeWhile p → p a = true := by
  intro l
  induction l with
  | nil => intro a h; simp [List.takeWhile] at h
  | cons x xs ih =>
    intro a h
    by_cases hx : p x
    · rw [List.takeWhile_cons, if_pos hx] at h
      rcases List.mem_cons.mp h with h' | h'
      · rw [h']; exact hx
      · exact ih a h'
    · rw [List.takeWhile_cons, if_neg hx] at h
      simp at h

theorem dropWhile_head_false {α : Type} (p : α → Bool) :
    ∀ (l : List α) (a : α), (l.dropWhile p).head? = some a → p a = false := by
  intro l
  induction l with
  | nil => intro a h; simp [List.dropWhile] at h
  | cons x xs ih =>
    intro a h
    by_cases hx : p x
    · rw [List.dropWhile_cons, if_pos hx] at h
      exact ih a h
    · rw [List.dropWhile_cons, if_neg hx] at h
      simp at h
      rw [← h]
      exact Bool.eq_false_iff.mpr hx

/-! ### C8 — `ForwardParams::update` frame conditions -/

/-- C8: `ForwardParams::update(k, s)` sets the predecessor TEK to `k` and
the shared encounter times to `s`, and leaves the computation id, the
origin TEK and the info validity's `valid_from` unchanged. -/
theorem c8_forward_params_update (p : ForwardParams) (k : Tek)
    (s : Finset ExposureTime) :
    (p.update k s).info.keyring.predecessor.tek = k ∧
    (p.update k s).shared_encounter_times = s ∧
    (p.update k s).computation_id = p.computation_id ∧
    (p.update k s).info.keyring.origin.tek = p.info.keyring.origin.tek ∧
    (p.update k s).info.valid_from = p.info.valid_from :=
  ⟨rfl, rfl, rfl, rfl, rfl⟩

/-! ### C10 — `Chunks::deduplicate` partitions the candidates -/

theorem deduplicate_foldl_eq (lt : LType) (cid : ComputationId) :
    ∀ (l : List Chunk) (A B : Finset VTek),
      l.foldl
        (fun acc chunk =>
          match lookupA chunk.data cid with
          | some st => acc \ st.listOf lt
          | none => acc)
        (A \ B) =
      A \ l.foldl
        (fun acc chunk =>
          match lookupA chunk.data cid with
          | some st => acc ∪ st.listOf lt
          | none => acc)
        B := by
  intro l
  induction l with
  | nil => intro A B; rfl
  | cons c rest ih =>
    intro A B
    cases h : lookupA c.data cid with
    | none => simp only [List.foldl_cons, h]; exact ih A B
    | some st =>
      simp only [List.foldl_cons, h]
      rw [sdiff_sdiff_left]
      exact ih A (B ∪ st.listOf lt)

/-- C10: `Chunks::deduplicate` returns a partition of the candidate set:
the two components are disjoint, their union is the candidates, and the
deduplicated component is the candidates minus the union over the done
chunks of the stored set for this computation id and list type. -/
theorem c10_deduplicate_partition (cs : Chunks) (lt : LType)
    (cid : ComputationId) (candidates : Finset VTek) :
    (cs.deduplicate lt cid candidates).1 =
        candidates \ cs.storedUnion lt cid ∧
    (cs.deduplicate lt cid candidates).2 =
        candidates \ (cs.deduplicate lt cid candidates).1 ∧
    Disjoint (cs.deduplicate lt cid candidates).1
        (cs.deduplicate lt cid candidates).2 ∧
    (cs.deduplicate lt cid candidates).1 ∪
        (cs.deduplicate lt cid candidates).2 = candidates := by
  have hfold : (cs.deduplicate lt cid candidates).1 =
      candidates \ cs.storedUnion lt cid := by
    unfold Chunks.deduplicate Chunks.storedUnion
    have := deduplicate_foldl_eq lt cid cs.inner candidates ∅
    rw [Finset.sdiff_empty] at this
    exact this
  refine ⟨hfold, rfl, ?_, ?_⟩
  · exact Finset.disjoint_sdiff
  · exact Finset.union_sdiff_of_subset (by rw [hfold]; exact Finset.sdiff_subset)

/-! ### C9 — `Chunks::add_done_chunk` push/prune behaviour -/

/-- C9: `add_done_chunk` pushes the sealed chunk to the front of the
done-chunk deque; then the oldest (back) chunk is popped exactly when its
`covers.to` is at most `now - retention_period`. At most one chunk is
removed (the `dropLast` of the pushed deque) and no other chunk is
touched; the retention period is unchanged. -/
theorem c9_add_done_chunk (cs : Chunks) (now : Timestamp) (c : Chunk) :
    (cs.addDoneChunk now c).retention_period = cs.retention_period ∧
    (((c :: cs.inner).getLast (List.cons_ne_nil c cs.inner)).covers.to_excluding ≤
        now - cs.retention_period →
      (cs.addDoneChunk now c).inner = (c :: cs.inner).dropLast) ∧
    (¬ ((c :: cs.inner).getLast (List.cons_ne_nil c cs.inner)).covers.to_excluding ≤
        now - cs.retention_period →
      (cs.addDoneChunk now c).inner = c :: cs.inner) := by
  simp only [Chunks.addDoneChunk]
  refine ⟨?_, ?_, ?_⟩
  · split <;> rfl
  · intro h
    rw [if_pos h]
  · intro h
    rw [if_neg h]

/-- Witness for C9 at a concrete deque: a two-element deque whose oldest
chunk has expired is pruned from the back while the new chunk stays at
the front. -/
theorem c9_add_done_chunk_witness :
    ((Chunks.mk 10 [Chunk.mk (TimeInterval.mk 80 90) []]).addDoneChunk 100
        (Chunk.mk (TimeInterval.mk 90 100) [])).inner =
      [Chunk.mk (TimeInterval.mk 90 100) []] := by
  have h2 := (c9_add_done_chunk
    (Chunks.mk 10 [Chunk.mk (TimeInterval.mk 80 90) []]) 100
    (Chunk.mk (TimeInterval.mk 90 100) [])).2.1 (by decide)
  rw [h2]
  rfl

/-! ### C5 — diagnosis server `download` -/

/-- C5: for every done-chunk deque and timestamp `from`, the `download`
handler returns the empty list when the deque is empty or `from` is at or
past the newest chunk's `covers.from`; otherwise it returns the longest
prefix (newest first) of the deque whose chunks do not contain `from`,
stopping exactly before the first chunk that does contain it; every
returned chunk comes from the done deque, so the current unsealed chunk
is never included. -/
theorem c5_download_spec (s : DsState) (t : Timestamp) :
    (s.done_chunks.inner = [] → s.requestChunks t = []) ∧
    (∀ newest rest, s.done_chunks.inner = newest :: rest →
      newest.covers.from_including ≤ t → s.requestChunks t = []) ∧
    (∀ newest rest, s.done_chunks.inner = newest :: rest →
      t < newest.covers.from_including →
      (∀ c ∈ s.requestChunks t, c.covers.containsT t = false) ∧
      ∃ suffix, s.done_chunks.inner = s.requestChunks t ++ suffix ∧
        ∀ c, suffix.head? = some c → c.covers.containsT t = true) ∧
    (∀ c ∈ s.requestChunks t, c ∈ s.done_chunks.inner) := by
  refine ⟨?_, ?_, ?_, ?_⟩
  · intro h
    unfold DsState.requestChunks Chunks.getChunks
    rw [h]
  · intro newest rest h hle
    unfold DsState.requestChunks Chunks.getChunks
    rw [h]
    dsimp only
    rw [if_pos hle]
  · intro newest rest h hlt
    have hnot : ¬ newest.covers.from_including ≤ t := not_le.mpr hlt
    have hres : s.requestChunks t =
        (newest :: rest).takeWhile (fun c => !(c.covers.containsT t)) := by
      unfold DsState.requestChunks Chunks.getChunks
      rw [h]
      dsimp only
      rw [if_neg hnot]
    constructor
    · intro c hc
      rw [hres] at hc
      have := takeWhile_mem_sat (fun c => !(c.covers.containsT t)) _ c hc
      simpa using this
    · refine ⟨(newest :: rest).dropWhile (fun c => !(c.covers.containsT t)),
        ?_, ?_⟩
      · rw [hres, h]
        exact (List.takeWhile_append_dropWhile _ _).symm
      · intro c hc
        have := dropWhile_head_false (fun c => !(c.covers.containsT t)) _ c hc
        simpa using this
  · intro c hc
    unfold DsState.requestChunks Chunks.getChunks at hc
    cases hinner : s.done_chunks.inner with
    | nil => rw [hinner] at hc; simp at hc
    | cons newest rest =>
      rw [hinner] at hc
      dsimp only at hc
      by_cases hle : newest.covers.from_including ≤ t
      · rw [if_pos hle] at hc; simp at hc
      · rw [if_neg hle] at hc
        have hsplit := List.takeWhile_append_dropWhile
          (fun c => !(c.covers.containsT t)) (newest :: rest)
        exact hsplit ▸ List.mem_append_left _ hc

/-- Witness for C5 at a concrete three-chunk deque with `from` inside the
oldest chunk: the two newer chunks are returned, newest first. -/
theorem c5_download_spec_witness :
    (DsState.mk (Chunk.mk (TimeInterval.mk 30 40) [])
        (Chunks.mk 100 [Chunk.mk (TimeInterval.mk 20 30) [],
          Chunk.mk (TimeInterval.mk 10 20) [],
          Chunk.mk (TimeInterval.mk 0 10) []])).requestChunks 5 =
      [Chunk.mk (TimeInterval.mk 20 30) [], Chunk.mk (TimeInterval.mk 10 20) []] ∧
    ((5 : Int) < 20 ∧
      ∀ c ∈ (DsState.mk (Chunk.mk (TimeInterval.mk 30 40) [])
        (Chunks.mk 100 [Chunk.mk (TimeInterval.mk 20 30) [],
          Chunk.mk (TimeInterval.mk 10 20) [],
          Chunk.mk (TimeInterval.mk 0 10) []])).requestChunks 5,
        c.covers.containsT 5 = false) := by
  refine ⟨by decide, by decide, ?_⟩
  have h := c5_download_spec (DsState.mk (Chunk.mk (TimeInterval.mk 30 40) [])
    (Chunks.mk 100 [Chunk.mk (TimeInterval.mk 20 30) [],
      Chunk.mk (TimeInterval.mk 10 20) [],
      Chunk.mk (TimeInterval.mk 0 10) []])) 5
  exact (h.2.2.1 (Chunk.mk (TimeInterval.mk 20 30) [])
    [Chunk.mk (TimeInterval.mk 10 20) [], Chunk.mk (TimeInterval.mk 0 10) []]
    rfl (by decide)).1

/-! ### C7 — `BluetoothLayer::match_with` panics iff the bucket carries
inconsistent connection identifiers -/

theorem allEqL_cons (a : SocketAddr) (l : List SocketAddr) :
    allEqL (a :: l) ↔ ∀ x ∈ l, x = a := by
  constructor
  · intro h x hx
    exact h x (List.mem_cons.mpr (Or.inr hx)) a (List.mem_cons_self a l)
  · intro h x hx y hy
    rcases List.mem_cons.mp hx with hx | hx <;>
      rcases List.mem_cons.mp hy with hy | hy
    · rw [hx, hy]
    · rw [hx, h y hy]
    · rw [hy, h x hx]
    · rw [h x hx, h y hy]

theorem allEqL_cons_dup (c : SocketAddr) (l : List SocketAddr) :
    allEqL (c :: c :: l) ↔ allEqL (c :: l) := by
  rw [allEqL_cons, allEqL_cons]
  constructor
  · intro h x hx
    exact h x (List.mem_cons.mpr (Or.inr hx))
  · intro h x hx
    rcases List.mem_cons.mp hx with hx | hx
    · exact hx
    · exact h x hx

theorem not_allEqL_iff (l : List SocketAddr) :
    ¬ allEqL l ↔ ∃ a ∈ l, ∃ b ∈ l, a ≠ b := by
  unfold allEqL
  push_neg
  rfl

theorem stepContact_not_matched (kr : TekKeyring) (enin : ExposureTime)
    (st : MatchAcc) (tc : TracedContact) (hr : ¬ tc.rpi = kr.rpi enin) :
    stepContact kr enin st tc = Except.ok st := by
  unfold stepContact
  rw [if_neg hr]

theorem stepContact_matched_none (kr : TekKeyring) (enin : ExposureTime)
    (h l : Finset ExposureTime) (tc : TracedContact)
    (hr : tc.rpi = kr.rpi enin) :
    ∃ h2 l2, stepContact kr enin (MatchAcc.mk h l none) tc =
      Except.ok (MatchAcc.mk h2 l2 (some tc.aem.decrypt.connection_identifier)) := by
  unfold stepContact
  rw [if_pos hr]
  by_cases hi : tc.aem.decrypt.intensity = Intensity.highRisk
  · exact ⟨insert enin h, l, by simp [hi]⟩
  · exact ⟨h, insert enin l, by simp [hi]⟩

theorem stepContact_matched_some_eq (kr : TekKeyring) (enin : ExposureTime)
    (h l : Finset ExposureTime) (a : SocketAddr) (tc : TracedContact)
    (hr : tc.rpi = kr.rpi enin)
    (ha : a = tc.aem.decrypt.connection_identifier) :
    ∃ h2 l2, stepContact kr enin (MatchAcc.mk h l (some a)) tc =
      Except.ok (MatchAcc.mk h2 l2 (some tc.aem.decrypt.connection_identifier)) := by
  unfold stepContact
  rw [if_pos hr]
  by_cases hi : tc.aem.decrypt.intensity = Intensity.highRisk
  · exact ⟨insert enin h, l, by simp [hi, ha]⟩
  · exact ⟨h, insert enin l, by simp [hi, ha]⟩

theorem stepContact_matched_some_ne (kr : TekKeyring) (enin : ExposureTime)
    (h l : Finset ExposureTime) (a : SocketAddr) (tc : TracedContact)
    (hr : tc.rpi = kr.rpi enin)
    (ha : ¬ a = tc.aem.decrypt.connection_identifier) :
    stepContact kr enin (MatchAcc.mk h l (some a)) tc = Except.error () := by
  unfold stepContact
  rw [if_pos hr]
  by_cases hi : tc.aem.decrypt.intensity = Intensity.highRisk
  · simp [hi, ha]
  · simp [hi, ha]

theorem pairsMatchingCIs_cons_matched (kr : TekKeyring)
    (p : ExposureTime × TracedContact)
    (ps : List (ExposureTime × TracedContact)) (hr : p.2.rpi = kr.rpi p.1) :
    pairsMatchingCIs kr (p :: ps) =
      p.2.aem.decrypt.connection_identifier :: pairsMatchingCIs kr ps := by
  unfold pairsMatchingCIs
  rw [List.filter_cons]
  simp [hr]

theorem pairsMatchingCIs_cons_not_matched (kr : TekKeyring)
    (p : ExposureTime × TracedContact)
    (ps : List (ExposureTime × TracedContact)) (hr : ¬ p.2.rpi = kr.rpi p.1) :
    pairsMatchingCIs kr (p :: ps) = pairsMatchingCIs kr ps := by
  unfold pairsMatchingCIs
  rw [List.filter_cons]
  simp [hr]

/-- The iteration of `match_with` over a flattened bucket errors exactly
when the connection identifier recorded so far (if any) together with the
matching contacts' identifiers are not all equal. -/
theorem scanError_iff (kr : TekKeyring) :
    ∀ (pairs : List (ExposureTime × TracedContact))
      (h l : Finset ExposureTime) (o : Option SocketAddr),
      (pairs.foldlM (fun st p => stepContact kr p.1 st p.2)
          (MatchAcc.mk h l o) = Except.error ()) ↔
        ¬ allEqL (o.toList ++ pairsMatchingCIs kr pairs) := by
  intro pairs
  induction pairs with
  | nil =>
    intro h l o
    constructor
    · intro hcon
      simp [List.foldlM, pure, Except.pure] at hcon
    · intro hne
      exfalso
      apply hne
      intro a ha b hb
      cases o with
      | none => simp [pairsMatchingCIs] at ha
      | some x =>
        simp [pairsMatchingCIs] at ha hb
        rw [ha, hb]
  | cons p ps ih =>
    intro h l o
    rw [List.foldlM_cons]
    by_cases hr : p.2.rpi = kr.rpi p.1
    · cases o with
      | none =>
        obtain ⟨h2, l2, hstep⟩ := stepContact_matched_none kr p.1 h l p.2 hr
        rw [hstep, pairsMatchingCIs_cons_matched kr p ps hr]
        have := ih h2 l2 (some p.2.aem.decrypt.connection_identifier)
        simpa using this
      | some a =>
        by_cases ha : a = p.2.aem.decrypt.connection_identifier
        · obtain ⟨h2, l2, hstep⟩ :=
            stepContact_matched_some_eq kr p.1 h l a p.2 hr ha
          rw [hstep, pairsMatchingCIs_cons_matched kr p ps hr]
          have hih := ih h2 l2 (some p.2.aem.decrypt.connection_identifier)
          simp only [Option.toList] at hih ⊢
          rw [ha]
          rw [show (([p.2.aem.decrypt.connection_identifier] :
              List SocketAddr) ++
              p.2.aem.decrypt.connection_identifier ::
                pairsMatchingCIs kr ps) =
            p.2.aem.decrypt.connection_identifier ::
              p.2.aem.decrypt.connection_identifier ::
                pairsMatchingCIs kr ps from rfl]
          rw [show (Except.ok (ε := Unit) (MatchAcc.mk h2 l2
              (some p.2.aem.decrypt.connection_identifier)) >>=
              fun b => ps.foldlM (fun st p => stepContact kr p.1 st p.2) b) =
            ps.foldlM (fun st p => stepContact kr p.1 st p.2)
              (MatchAcc.mk h2 l2
                (some p.2.aem.decrypt.connection_identifier)) from rfl]
          rw [hih]
          constructor
          · intro hne hc
            exact hne ((allEqL_cons_dup _ _).mp hc)
          · intro hne hc
            exact hne ((allEqL_cons_dup _ _).mpr hc)
        · rw [stepContact_matched_some_ne kr p.1 h l a p.2 hr ha]
          rw [pairsMatchingCIs_cons_matched kr p ps hr]
          constructor
          · intro _ hc
            apply ha
            exact hc a (List.mem_cons_self _ _)
              p.2.aem.decrypt.connection_identifier
              (List.mem_cons.mpr (Or.inr (List.mem_cons_self _ _)))
          · intro _
            rfl
    · rw [stepContact_not_matched kr p.1 (MatchAcc.mk h l o) p.2 hr,
        pairsMatchingCIs_cons_not_matched kr p ps hr]
      have hih := ih h l o
      rw [show (Except.ok (ε := Unit) (MatchAcc.mk h l o) >>=
          fun b => ps.foldlM (fun st p => stepContact kr p.1 st p.2) b) =
        ps.foldlM (fun st p => stepContact kr p.1 st p.2)
          (MatchAcc.mk h l o) from rfl]
      exact hih

/-- C7: `match_with` panics exactly when two RPI-matching traced contacts
inside the candidate's TEKRP bucket decrypt to different connection
identifiers; when all matching contacts agree on the identifier there is
no panic. -/
theorem c7_match_with_panic_iff (bl : BluetoothLayer)
    (w : Validity TekKeyring) :
    bl.matchWith w = Except.error () ↔
      ∃ c1 ∈ matchingCIs bl w, ∃ c2 ∈ matchingCIs bl w, c1 ≠ c2 := by
  unfold BluetoothLayer.matchWith matchingCIs
  cases hb : lookupA bl.traced_contacts w.valid_from with
  | none => simp
  | some bucket =>
    dsimp only
    have hiff := scanError_iff w.keyring (bucketPairs bucket) ∅ ∅ none
    simp only [Option.toList, List.nil_append] at hiff
    rw [← not_allEqL_iff]
    rw [← hiff]
    cases hfold : (bucketPairs bucket).foldlM
        (fun st p => stepContact w.keyring p.1 st p.2)
        (MatchAcc.mk ∅ ∅ none) with
    | error e =>
      cases e
      constructor
      · intro _
        rfl
      · intro _
        rfl
    | ok acc =>
      obtain ⟨h2, l2, sa⟩ := acc
      constructor
      · intro hc
        cases sa with
        | some a => exact Except.noConfusion hc
        | none => exact Except.noConfusion hc
      · intro hc
        exact Except.noConfusion hc

/-! ### C4 — low-risk matches never start a forwarding chain -/

/-- C4: when the match's `high_risk` set is empty, `on_tek_match` returns
early with the state unchanged — no listener window, no forward RPC, no
computation entry creation or mutation, and the `traced_contact` flag is
untouched; the only output is the low-risk traced-contact alert when the
TEK came from the blacklist. -/
theorem c4_low_risk_no_forward (s : ClientState) (tek : VTek) (lt : LType)
    (cid : ComputationId) (m : Match)
    (hm : s.bluetooth_layer.matchWith (deriveKeyring tek) =
      Except.ok (some m))
    (hhr : m.high_risk = ∅) :
    s.onTekMatch tek lt cid =
      Except.ok (s,
        if lt = LType.blacklist then [Effect.alertTracedContact false]
        else []) := by
  unfold ClientState.onTekMatch
  rw [hm]
  dsimp only
  have h1 : ¬ (lt = LType.blacklist ∧ m.high_risk ≠ ∅) := by
    intro hand
    exact hand.2 hhr
  rw [if_neg h1, if_pos hhr]
  by_cases hbl : lt = LType.blacklist
  · rw [if_pos hbl, if_pos hbl]
    have : (decide (m.high_risk ≠ ∅)) = false := by
      simp [hhr]
    rw [this]
  · rw [if_neg hbl, if_neg hbl]

/-- Witness for C4: a blacklist TEK whose only matching contact is
low-risk produces a low-risk alert and leaves the concrete state
unchanged. -/
theorem c4_low_risk_no_forward_witness :
    (ClientState.mk false 2
        [Validity.mk 4 (ExposureKeyring.mk (TekKeyring.ofTek 9))]
        (BluetoothLayer.mk [(4, [(5, [TracedContact.mk 0 5
          (Rpi.mk (deriveRpik 7) 5)
          (Aem.mk (Metadata.mk Intensity.lowRisk 42))])])])
        [] false false none).onTekMatch
      (Validity.mk 4 7) LType.blacklist 0 =
    Except.ok
      ((ClientState.mk false 2
        [Validity.mk 4 (ExposureKeyring.mk (TekKeyring.ofTek 9))]
        (BluetoothLayer.mk [(4, [(5, [TracedContact.mk 0 5
          (Rpi.mk (deriveRpik 7) 5)
          (Aem.mk (Metadata.mk Intensity.lowRisk 42))])])])
        [] false false none),
        [Effect.alertTracedContact false]) := by
  have h := c4_low_risk_no_forward
    (ClientState.mk false 2
      [Validity.mk 4 (ExposureKeyring.mk (TekKeyring.ofTek 9))]
      (BluetoothLayer.mk [(4, [(5, [TracedContact.mk 0 5
        (Rpi.mk (deriveRpik 7) 5)
        (Aem.mk (Metadata.mk Intensity.lowRisk 42))])])])
      [] false false none)
    (Validity.mk 4 7) LType.blacklist 0
    (Match.mk 42 (Validity.mk 4 7) ∅ {5})
    (by decide) (by decide)
  rw [h]
  rfl

/-! ### C3 — greylist echo suppression via the redlist -/

/-- C3: on a greylist TEK whose match is already in the computation's
redlist, `on_tek_match` returns with the state fully unchanged (for a
greylist TEK not even the alert flags move): no listener window, no
forward RPC, no successors insertion, no effects at all. -/
theorem c3_greylist_redlist_echo_drop (s : ClientState) (tek : VTek)
    (cid : ComputationId) (m : Match) (comp : Computation)
    (hm : s.bluetooth_layer.matchWith (deriveKeyring tek) =
      Except.ok (some m))
    (hc : lookupA s.computations cid = some comp)
    (hred : m.tek ∈ comp.redlist) :
    s.onTekMatch tek LType.greylist cid = Except.ok (s, []) := by
  unfold ClientState.onTekMatch
  rw [hm]
  dsimp only
  have h1 : ¬ (LType.greylist = LType.blacklist ∧ m.high_risk ≠ ∅) := by
    intro hand
    cases hand.1
  have h2 : ¬ (LType.greylist = LType.blacklist) := by
    intro hq
    cases hq
  rw [if_neg h1, if_neg h2]
  by_cases hhr : m.high_risk = ∅
  · rw [if_pos hhr]
  · rw [if_neg hhr]
    rw [hc]
    dsimp only
    have hecho : (LType.greylist = LType.greylist && decide (m.tek ∈ comp.redlist)) = true := by
      simp [hred]
    rw [if_pos hecho]

/-- Witness for C3: a greylist TEK with a high-risk match already admitted
to the redlist is dropped with no state change and no effects. -/
theorem c3_greylist_redlist_echo_drop_witness :
    (ClientState.mk false 2
        [Validity.mk 4 (ExposureKeyring.mk (TekKeyring.ofTek 9))]
        (BluetoothLayer.mk [(4, [(5, [TracedContact.mk 0 5
          (Rpi.mk (deriveRpik 7) 5)
          (Aem.mk (Metadata.mk Intensity.highRisk 42))])])])
        [(0, Computation.mk [] {Validity.mk 4 7})] false false none).onTekMatch
      (Validity.mk 4 7) LType.greylist 0 =
    Except.ok
      ((ClientState.mk false 2
        [Validity.mk 4 (ExposureKeyring.mk (TekKeyring.ofTek 9))]
        (BluetoothLayer.mk [(4, [(5, [TracedContact.mk 0 5
          (Rpi.mk (deriveRpik 7) 5)
          (Aem.mk (Metadata.mk Intensity.highRisk 42))])])])
        [(0, Computation.mk [] {Validity.mk 4 7})] false false none), []) := by
  have h := c3_greylist_redlist_echo_drop
    (ClientState.mk false 2
      [Validity.mk 4 (ExposureKeyring.mk (TekKeyring.ofTek 9))]
      (BluetoothLayer.mk [(4, [(5, [TracedContact.mk 0 5
        (Rpi.mk (deriveRpik 7) 5)
        (Aem.mk (Metadata.mk Intensity.highRisk 42))])])])
      [(0, Computation.mk [] {Validity.mk 4 7})] false false none)
    (Validity.mk 4 7) 0
    (Match.mk 42 (Validity.mk 4 7) {5} ∅)
    (Computation.mk [] {Validity.mk 4 7})
    (by decide) (by decide) (by decide)
  rw [h]

/-! ### C2 — pooling node uploads the origin TEK to the greylist -/

/-- C2: in `on_tek_forward`, when no drop condition fires and the
computation is the node's own, the handler's only effect is one greylist
upload of exactly the singleton `{origin_tek}` under the message's
computation id — in particular no forward RPC is emitted. The state keeps
only the redlist admission of a first forward. -/
theorem c2_pooling_greylist_upload (s : ClientState) (p : ForwardParams)
    (m : Match) (comp : Computation)
    (hm : s.bluetooth_layer.matchWith
        (deriveKeyring (p.predecessorTek s.tekrp)) = Except.ok (some m))
    (hc : lookupA s.computations p.computation_id = some comp)
    (hred : p.predecessorTek s.tekrp ∈ (redlistAdmit p s.tekrp comp).redlist)
    (hsh : m.high_risk ∩ p.shared_encounter_times ≠ ∅)
    (hown : (redlistAdmit p s.tekrp comp).isOwn = true) :
    s.onTekForward p =
      Except.ok
        ({ s with
            computations :=
              insertA s.computations p.computation_id
                (redlistAdmit p s.tekrp comp) },
          [Effect.greylistUpload p.computation_id {(p.originTek s.tekrp)}]) ∧
    ∀ e ∈ [Effect.greylistUpload p.computation_id {(p.originTek s.tekrp)}],
      e.isForward = false := by
  constructor
  · unfold ClientState.onTekForward
    dsimp only
    rw [hm]
    dsimp only
    rw [hc]
    dsimp only
    rw [if_neg (not_not_intro hred), if_neg hsh, if_pos hown]
  · intro e he
    rcases List.mem_singleton.mp he with h
    rw [h]
    rfl

/-- Witness for C2: a concrete first forward arriving at the pooling node
is admitted to the redlist and answered by exactly one greylist upload of
the origin TEK. -/
theorem c2_pooling_greylist_upload_witness :
    (ClientState.mk false 2
        [Validity.mk 4 (ExposureKeyring.mk (TekKeyring.ofTek 9))]
        (BluetoothLayer.mk [(4, [(5, [TracedContact.mk 0 5
          (Rpi.mk (deriveRpik 7) 5)
          (Aem.mk (Metadata.mk Intensity.highRisk 42))])])])
        [(3, Computation.mk [] ∅)] false false none).onTekForward
      (ForwardParams.mk 3
        (Validity.mk 4 (ForwardInfo.mk (PredecessorInfo.mk 7) (OriginInfo.mk 7)))
        {5}) =
    Except.ok
      ((ClientState.mk false 2
        [Validity.mk 4 (ExposureKeyring.mk (TekKeyring.ofTek 9))]
        (BluetoothLayer.mk [(4, [(5, [TracedContact.mk 0 5
          (Rpi.mk (deriveRpik 7) 5)
          (Aem.mk (Metadata.mk Intensity.highRisk 42))])])])
        [(3, Computation.mk [] {Validity.mk 4 7})] false false none),
        [Effect.greylistUpload 3 {Validity.mk 4 7}]) := by
  have h := (c2_pooling_greylist_upload
    (ClientState.mk false 2
      [Validity.mk 4 (ExposureKeyring.mk (TekKeyring.ofTek 9))]
      (BluetoothLayer.mk [(4, [(5, [TracedContact.mk 0 5
        (Rpi.mk (deriveRpik 7) 5)
        (Aem.mk (Metadata.mk Intensity.highRisk 42))])])])
      [(3, Computation.mk [] ∅)] false false none)
    (ForwardParams.mk 3
      (Validity.mk 4 (ForwardInfo.mk (PredecessorInfo.mk 7) (OriginInfo.mk 7)))
      {5})
    (Match.mk 42 (Validity.mk 4 7) {5} ∅)
    (Computation.mk [] ∅)
    (by decide) (by decide) (by decide) (by decide) (by decide)).1
  rw [h]
  rfl

/-! ### C6 — the `next_from` reply of `NewChunks` -/

theorem processChunks_reply :
    ∀ (cs : List Chunk) (s : ClientState) (nf : Timestamp)
      (out : ClientState × List Effect × Timestamp),
      s.processChunks nf cs = Except.ok out → out.2.2 = nextFromFold nf cs := by
  intro cs
  induction cs with
  | nil =>
    intro s nf out h
    unfold ClientState.processChunks at h
    cases h
    rfl
  | cons c rest ih =>
    intro s nf out h
    unfold ClientState.processChunks at h
    dsimp only at h
    cases h1 : s.processChunk c.data with
    | error e => rw [h1] at h; cases h
    | ok pr =>
      rw [h1] at h
      cases pr with
      | mk s1 effs1 =>
        dsimp only at h
        cases h2 : ClientState.processChunks s1
            (if nf < c.covers.to_excluding then c.covers.from_including
              else nf) rest with
        | error e => rw [h2] at h; cases h
        | ok out2 =>
          rw [h2] at h
          cases out2 with
          | mk s2 pr2 =>
            cases pr2 with
            | mk effs2 r =>
              cases h
              have := ih s1
                (if nf < c.covers.to_excluding then c.covers.from_including
                  else nf) (s2, effs2, r) h2
              rw [nextFromFold, List.foldl_cons]
              exact this

theorem nextFromFold_const (l : List Chunk) (a : Timestamp)
    (h : ∀ c ∈ l, c.covers.to_excluding ≤ a) : nextFromFold a l = a := by
  induction l with
  | nil => rfl
  | cons c rest ih =>
    rw [nextFromFold, List.foldl_cons]
    have hc : ¬ a < c.covers.to_excluding :=
      not_lt.mpr (h c (List.mem_cons_self c rest))
    rw [if_neg hc]
    exact ih fun d hd => h d (List.mem_cons.mpr (Or.inr hd))

theorem nextFromSpecMax_const (l : List Chunk) (a : Timestamp)
    (h : ∀ c ∈ l, c.covers.from_including ≤ a) : nextFromSpecMax a l = a := by
  induction l with
  | nil => rfl
  | cons c rest ih =>
    rw [nextFromSpecMax, List.foldl_cons]
    rw [max_eq_left (h c (List.mem_cons_self c rest))]
    exact ih fun d hd => h d (List.mem_cons.mpr (Or.inr hd))

/-- Counterexample to C1's sibling claim C6 as stated: with
`last_from = 5` and a single chunk covering `[3, 10)` the handler replies
`3` — it rewinds *below* `last_from` — while the claimed value
`max(last_from, covers.from)` is `5`. -/
theorem c6_next_from_counterexample :
    (ClientState.mk false 2 [] (BluetoothLayer.mk []) [] false false
        none).processChunks 5 [Chunk.mk (TimeInterval.mk 3 10) []] =
      Except.ok
        (ClientState.mk false 2 [] (BluetoothLayer.mk []) [] false false none,
          [], 3) ∧
    nextFromSpecMax 5 [Chunk.mk (TimeInterval.mk 3 10) []] = 5 ∧
    (3 : Timestamp) ≠ 5 :=
  ⟨rfl, rfl, by decide⟩

/-- C6 (amended): the code replies with the fold
`next_from := chunk.covers.from when chunk.covers.to > next_from`; this
equals the claimed `max(last_from, max of covers.from)` whenever the
chunks are well-formed, ordered newest-first with every later chunk
ending no later than the first one starts (as the diagnosis server
delivers them), and `last_from` does not lie strictly inside the first
chunk's interval. -/
theorem c6_next_from_amended (s : ClientState) (lf : Timestamp)
    (cs : List Chunk) (s' : ClientState) (effs : List Effect) (r : Timestamp)
    (hwf : ∀ c ∈ cs, c.covers.from_including < c.covers.to_excluding)
    (hord : ∀ c0 ∈ cs.head?,
      (∀ c ∈ cs.tail, c.covers.to_excluding ≤ c0.covers.from_including) ∧
      ¬ (c0.covers.from_including < lf ∧ lf < c0.covers.to_excluding))
    (h : s.processChunks lf cs = Except.ok (s', effs, r)) :
    r = nextFromSpecMax lf cs := by
  have hr : r = nextFromFold lf cs :=
    processChunks_reply cs s lf (s', effs, r) h
  cases cs with
  | nil => rw [hr]; rfl
  | cons c0 rest =>
    obtain ⟨htail, hc0⟩ := hord c0 (by rw [List.head?_cons]; rfl)
    have hwf0 : c0.covers.from_including < c0.covers.to_excluding :=
      hwf c0 (List.mem_cons_self c0 rest)
    rw [hr, nextFromFold, List.foldl_cons]
    rw [nextFromSpecMax, List.foldl_cons]
    by_cases hlt : lf < c0.covers.to_excluding
    · have hle : lf ≤ c0.covers.from_including := by
        by_contra hcon
        exact hc0 ⟨not_le.mp hcon, hlt⟩
      rw [if_pos hlt, max_eq_right hle]
      have h1 : nextFromFold c0.covers.from_including rest =
          c0.covers.from_including :=
        nextFromFold_const rest c0.covers.from_including htail
      have h2 : nextFromSpecMax c0.covers.from_including rest =
          c0.covers.from_including :=
        nextFromSpecMax_const rest c0.covers.from_including fun d hd =>
          le_of_lt (lt_of_lt_of_le (hwf d (List.mem_cons.mpr (Or.inr hd)))
            (htail d hd))
      rw [nextFromFold] at h1
      rw [nextFromSpecMax] at h2
      rw [h1, h2]
    · have hge : c0.covers.to_excluding ≤ lf := not_lt.mp hlt
      have hfle : c0.covers.from_including ≤ lf := le_of_lt
        (lt_of_lt_of_le hwf0 hge)
      rw [if_neg hlt, max_eq_left hfle]
      have h1 : nextFromFold lf rest = lf :=
        nextFromFold_const rest lf fun d hd =>
          le_trans (htail d hd) hfle
      have h2 : nextFromSpecMax lf rest = lf :=
        nextFromSpecMax_const rest lf fun d hd =>
          le_trans (le_of_lt (lt_of_lt_of_le
            (hwf d (List.mem_cons.mpr (Or.inr hd))) (htail d hd))) hfle
      rw [nextFromFold] at h1
      rw [nextFromSpecMax] at h2
      rw [h1, h2]

/-- Witness for the amended C6 on two contiguous chunks downloaded with
`last_from = 0`: the reply is the newest chunk's `covers.from`, which is
also the max-fold value. -/
theorem c6_next_from_amended_witness :
    (10 : Timestamp) =
      nextFromSpecMax 0 [Chunk.mk (TimeInterval.mk 10 20) [],
        Chunk.mk (TimeInterval.mk 0 10) []] := by
  have h := c6_next_from_amended
    (ClientState.mk false 2 [] (BluetoothLayer.mk []) [] false false none) 0
    [Chunk.mk (TimeInterval.mk 10 20) [], Chunk.mk (TimeInterval.mk 0 10) []]
    (ClientState.mk false 2 [] (BluetoothLayer.mk []) [] false false none)
    [] 10
    (by decide)
    (by
      intro c0 hc0
      rw [List.head?_cons, Option.mem_def] at hc0
      injection hc0 with h0
      rw [← h0]
      constructor
      · intro c hc
        rw [List.tail_cons] at hc
        rw [List.mem_singleton.mp hc]
      · decide)
    rfl
  exact h

/-! ### C1 — `is_own` versus creation by `init` -/

theorem presInv_refl (s : ClientState) : presInv s s := ⟨rfl, fun hi => hi⟩

theorem presInv_trans (s1 s2 s3 : ClientState) (h1 : presInv s1 s2)
    (h2 : presInv s2 s3) : presInv s1 s3 :=
  ⟨h2.1.trans h1.1, fun hi => h2.2 (h1.2 hi)⟩

theorem nonInitNonEmpty_eq (s s' : ClientState)
    (hc : s'.computations = s.computations) (ho : s'.ownCid = s.ownCid) :
    nonInitNonEmpty s → nonInitNonEmpty s' := by
  intro hi p hp hne
  rw [hc] at hp
  rw [ho] at hne
  exact hi p hp hne

theorem presInv_of_eq (s s' : ClientState)
    (hc : s'.computations = s.computations) (ho : s'.ownCid = s.ownCid) :
    presInv s s' :=
  ⟨ho, nonInitNonEmpty_eq s s' hc ho⟩

/-- Inserting an entry with non-empty successors preserves the C1
invariant (the entry trivially satisfies it, old entries are untouched). -/
theorem presInv_insertNonempty (s s1 : ClientState) (cid : ComputationId)
    (comp1 : Computation)
    (hc : s1.computations = s.computations) (ho : s1.ownCid = s.ownCid)
    (hne : comp1.successors ≠ []) :
    presInv s { s1 with computations := insertA s1.computations cid comp1 } := by
  constructor
  · exact ho
  · intro hi p hp hpne
    rcases insertA_mem s1.computations cid comp1 p hp with h1 | h1
    · rw [h1]
      exact hne
    · rw [hc] at h1
      apply hi p h1
      intro hq
      apply hpne
      show s1.ownCid = some p.1
      rw [ho]
      exact hq

/-- Replacing an existing entry while keeping its successor list preserves
the C1 invariant. -/
theorem presInv_insertKeep (s : ClientState) (cid : ComputationId)
    (comp comp1 : Computation)
    (hl : lookupA s.computations cid = some comp)
    (hs : comp1.successors = comp.successors) :
    presInv s { s with computations := insertA s.computations cid comp1 } := by
  constructor
  · rfl
  · intro hi q hq hqne
    rcases insertA_mem s.computations cid comp1 q hq with h1 | h1
    · rw [h1]
      show comp1.successors ≠ []
      rw [hs]
      apply hi (cid, comp) (lookupA_mem s.computations cid comp hl)
      intro hq2
      apply hqne
      show s.ownCid = some q.1
      rw [h1]
      exact hq2
    · exact hi q h1 hqne

theorem redlistAdmit_successors (p : ForwardParams) (tekrp : Nat)
    (comp : Computation) :
    (redlistAdmit p tekrp comp).successors = comp.successors := by
  unfold redlistAdmit
  split <;> rfl

theorem onTekMatch_pres (s : ClientState) (tek : VTek) (lt : LType)
    (cid : ComputationId) (s' : ClientState) (effs : List Effect)
    (h : s.onTekMatch tek lt cid = Except.ok (s', effs)) : presInv s s' := by
  unfold ClientState.onTekMatch at h
  cases hmw : s.bluetooth_layer.matchWith (deriveKeyring tek) with
  | error e => rw [hmw] at h; cases h
  | ok mo =>
    rw [hmw] at h
    cases mo with
    | none =>
      cases h
      exact presInv_refl s
    | some m =>
      dsimp only at h
      by_cases hP : (lt = LType.blacklist ∧ m.high_risk ≠ ∅)
      · rw [if_pos hP] at h
        by_cases hhr : m.high_risk = ∅
        · rw [if_pos hhr] at h
          cases h
          exact presInv_of_eq s _ rfl rfl
        · rw [if_neg hhr] at h
          split at h
          · cases h
            exact presInv_of_eq s _ rfl rfl
          · split at h
            · cases h
            · cases h
              exact presInv_insertNonempty s _ cid _ rfl rfl
                (insertMatch_ne_nil _ m)
      · rw [if_neg hP] at h
        by_cases hhr : m.high_risk = ∅
        · rw [if_pos hhr] at h
          cases h
          exact presInv_refl s
        · rw [if_neg hhr] at h
          split at h
          · cases h
            exact presInv_refl s
          · split at h
            · cases h
            · cases h
              exact presInv_insertNonempty s s cid _ rfl rfl
                (insertMatch_ne_nil _ m)

theorem onTekForward_pres (s : ClientState) (p : ForwardParams)
    (s' : ClientState) (effs : List Effect)
    (h : s.onTekForward p = Except.ok (s', effs)) : presInv s s' := by
  unfold ClientState.onTekForward at h
  dsimp only at h
  cases hmw : s.bluetooth_layer.matchWith
      (deriveKeyring (p.predecessorTek s.tekrp)) with
  | error e => rw [hmw] at h; cases h
  | ok mo =>
    rw [hmw] at h
    cases mo with
    | none =>
      cases h
      exact presInv_refl s
    | some m =>
      cases hl : lookupA s.computations p.computation_id with
      | none =>
        rw [hl] at h
        cases h
        exact presInv_refl s
      | some comp =>
        rw [hl] at h
        dsimp only at h
        have hpres : presInv s
            { s with
              computations :=
                insertA s.computations p.computation_id
                  (redlistAdmit p s.tekrp comp) } :=
          presInv_insertKeep s p.computation_id comp
            (redlistAdmit p s.tekrp comp) hl
            (redlistAdmit_successors p s.tekrp comp)
        split at h
        · cases h
          exact hpres
        · split at h
          · cases h
            exact hpres
          · split at h
            · cases h
              exact hpres
            · split at h
              · cases h
              · cases h
                exact hpres

theorem processTeks_pres (lt : LType) (cid : ComputationId) :
    ∀ (ts : List VTek) (s s' : ClientState) (effs : List Effect),
      ClientState.processTeks lt cid s ts = Except.ok (s', effs) →
        presInv s s' := by
  intro ts
  induction ts with
  | nil =>
    intro s s' effs h
    cases h
    exact presInv_refl s
  | cons t rest ih =>
    intro s s' effs h
    unfold ClientState.processTeks at h
    cases heq1 : s.onTekMatch t lt cid with
    | error e => rw [heq1] at h; cases h
    | ok pr =>
      rw [heq1] at h
      cases pr with
      | mk s1 effs1 =>
        dsimp only at h
        cases heq2 : ClientState.processTeks lt cid s1 rest with
        | error e => rw [heq2] at h; cases h
        | ok out =>
          rw [heq2] at h
          cases out with
          | mk s2 effs2 =>
            cases h
            exact presInv_trans s s1 s'
              (onTekMatch_pres s t lt cid s1 effs1 heq1)
              (ih s1 s' effs2 heq2)

theorem noteTransitive_pres (s : ClientState) (cid : ComputationId)
    (cstate : ComputationState) : presInv s (s.noteTransitive cid cstate) := by
  unfold ClientState.noteTransitive
  split <;> exact presInv_of_eq s _ rfl rfl

theorem processEntry_pres (s : ClientState) (cid : ComputationId)
    (cstate : ComputationState) (s' : ClientState) (effs : List Effect)
    (h : s.processEntry cid cstate = Except.ok (s', effs)) :
    presInv s s' := by
  unfold ClientState.processEntry at h
  dsimp only at h
  cases heq1 : ClientState.processTeks LType.blacklist cid
      (s.noteTransitive cid cstate) cstate.blacklist with
  | error e => rw [heq1] at h; cases h
  | ok pr =>
    rw [heq1] at h
    cases pr with
    | mk s1 effs1 =>
      dsimp only at h
      cases heq2 : ClientState.processTeks LType.greylist cid s1
          cstate.greylist with
      | error e => rw [heq2] at h; cases h
      | ok out =>
        rw [heq2] at h
        cases out with
        | mk s2 effs2 =>
          cases h
          exact presInv_trans s s1 s'
            (presInv_trans s (s.noteTransitive cid cstate) s1
              (noteTransitive_pres s cid cstate)
              (processTeks_pres LType.blacklist cid cstate.blacklist
                (s.noteTransitive cid cstate) s1 effs1 heq1))
            (processTeks_pres LType.greylist cid cstate.greylist s1 s'
              effs2 heq2)

theorem processChunk_pres :
    ∀ (data : List (ComputationId × ComputationState)) (s s' : ClientState)
      (effs : List Effect),
      s.processChunk data = Except.ok (s', effs) → presInv s s' := by
  intro data
  induction data with
  | nil =>
    intro s s' effs h
    cases h
    exact presInv_refl s
  | cons e rest ih =>
    intro s s' effs h
    cases e with
    | mk cid cstate =>
      unfold ClientState.processChunk at h
      cases heq1 : s.processEntry cid cstate with
      | error er => rw [heq1] at h; cases h
      | ok pr =>
        rw [heq1] at h
        cases pr with
        | mk s1 effs1 =>
          dsimp only at h
          cases heq2 : ClientState.processChunk s1 rest with
          | error er => rw [heq2] at h; cases h
          | ok out =>
            rw [heq2] at h
            cases out with
            | mk s2 effs2 =>
              cases h
              exact presInv_trans s s1 s'
                (processEntry_pres s cid cstate s1 effs1 heq1)
                (ih s1 s' effs2 heq2)

theorem processChunks_pres :
    ∀ (chunks : List Chunk) (s : ClientState) (nf : Timestamp)
      (s' : ClientState) (effs : List Effect) (r : Timestamp),
      s.processChunks nf chunks = Except.ok (s', effs, r) → presInv s s' := by
  intro chunks
  induction chunks with
  | nil =>
    intro s nf s' effs r h
    cases h
    exact presInv_refl s
  | cons c rest ih =>
    intro s nf s' effs r h
    unfold ClientState.processChunks at h
    dsimp only at h
    cases heq1 : s.processChunk c.data with
    | error e => rw [heq1] at h; cases h
    | ok pr =>
      rw [heq1] at h
      cases pr with
      | mk s1 effs1 =>
        dsimp only at h
        cases heq2 : ClientState.processChunks s1
            (if nf < c.covers.to_excluding then c.covers.from_including
              else nf) rest with
        | error e => rw [heq2] at h; cases h
        | ok out =>
          rw [heq2] at h
          cases out with
          | mk s2 pr2 =>
            cases pr2 with
            | mk effs2 r2 =>
              cases h
              exact presInv_trans s s1 s'
                (processChunk_pres c.data s s1 effs1 heq1)
                (ih s1 _ s' effs2 r heq2)

theorem handleEvent_pres (s : ClientState) (e : Event) (s' : ClientState)
    (effs : List Effect) (h : s.handleEvent e = Except.ok (s', effs)) :
    presInv s s' := by
  cases e with
  | newChunks lf cs =>
    unfold ClientState.handleEvent at h
    dsimp only at h
    cases heq : s.processChunks lf cs with
    | error er => rw [heq] at h; cases h
    | ok out =>
      rw [heq] at h
      cases out with
      | mk s1 pr2 =>
        cases pr2 with
        | mk effs1 r =>
          cases h
          exact processChunks_pres cs s lf s' effs r heq
  | newForwardRequest p =>
    exact onTekForward_pres s p s' effs h
  | computationPeriodExpired =>
    cases h
    exact presInv_refl s

theorem runEvents_pres :
    ∀ (evts : List Event) (s s' : ClientState),
      runEvents s evts = Except.ok s' → presInv s s' := by
  intro evts
  induction evts with
  | nil =>
    intro s s' h
    cases h
    exact presInv_refl s
  | cons e rest ih =>
    intro s s' h
    unfold runEvents at h
    cases heq : s.handleEvent e with
    | error er => rw [heq] at h; cases h
    | ok pr =>
      rw [heq] at h
      cases pr with
      | mk s1 effs1 =>
        exact presInv_trans s s1 s'
          (handleEvent_pres s e s1 effs1 heq) (ih s1 s' h)

/-- Counterexample to C1 as stated: starting from the positively tested
`exhibitStart`, `init` (assigned id 0) creates the own computation, and a
single downloaded chunk whose greylist holds a foreign TEK under that
computation id makes `on_tek_match` insert a successor into the
init-created entry — `is_own()` then returns `false` for the entry that
*was* created by the node's own blacklist upload, so the claimed
equivalence fails in a reachable state. -/
theorem c1_is_own_counterexample :
    exhibitStart.startState ∧
    reachableState exhibitStart 0 [Event.newChunks 0 [exhibitChunk]] =
      Except.ok exhibitFinal ∧
    ¬ ownInvariant exhibitFinal := by
  refine ⟨⟨rfl, rfl, rfl, rfl⟩, rfl, ?_⟩
  intro hinv
  have hp := hinv ((exhibitFinal.computations).head (by decide))
    (by decide)
  rw [show exhibitFinal.ownCid = some 0 from rfl] at hp
  have := hp.mpr (by decide)
  revert this
  decide

/-- C1 (amended): in every reachable participant state, every computation
entry that was *not* created by `init` has a non-empty successor set —
hence `is_own()` implies creation by the node's own blacklist upload. The
converse direction of the original claim fails: the init-created entry's
successor set can grow (see the counterexample), flipping its `is_own()`
to false. -/
theorem c1_non_init_nonempty_successors (s0 : ClientState)
    (h0 : s0.startState) (assigned : ComputationId) (evts : List Event)
    (s : ClientState)
    (h : reachableState s0 assigned evts = Except.ok s) :
    nonInitNonEmpty s ∧
    ∀ p ∈ s.computations,
      (p : ComputationId × Computation).2.isOwn = true →
        s.ownCid = some p.1 := by
  obtain ⟨hc0, _, _, _⟩ := h0
  have hinit : nonInitNonEmpty (s0.init assigned).1 := by
    unfold ClientState.init
    by_cases hp : s0.positively_tested = true
    · rw [if_pos hp]
      intro p hp' hne
      rw [hc0] at hp'
      rcases insertA_mem [] assigned Computation.default p hp' with h1 | h1
      · exfalso
        apply hne
        show some assigned = some p.1
        rw [h1]
      · cases h1
    · rw [if_neg hp]
      intro p hp' hne
      rw [hc0] at hp'
      cases hp'
  have hpres := runEvents_pres evts (s0.init assigned).1 s h
  have hinv : nonInitNonEmpty s := hpres.2 hinit
  refine ⟨hinv, ?_⟩
  intro p hp hown
  by_contra hne
  apply hinv p hp hne
  exact List.isEmpty_iff.mp hown

/-- Witness for the amended C1 at the counterexample run: in the reached
state every non-init entry (there is none besides the init-created one)
has non-empty successors. -/
theorem c1_non_init_nonempty_successors_witness :
    nonInitNonEmpty exhibitFinal ∧
    ∀ p ∈ exhibitFinal.computations,
      (p : ComputationId × Computation).2.isOwn = true →
        exhibitFinal.ownCid = some p.1 :=
  c1_non_init_nonempty_successors exhibitStart ⟨rfl, rfl, rfl, rfl⟩ 0
    [Event.newChunks 0 [exhibitChunk]] exhibitFinal rfl

end Gaenext
